import Mathlib

/-!
Verification of the `llm-over-dns` repository (Rust) against its
natural-language specification.

The Rust code is shallowly embedded: a Rust `&str` / `String` (always valid
UTF-8) is modelled as a `List Char`, with byte positions computed from
`Char.utf8Size`, so that the UTF-8 boundary arithmetic of the source is
preserved exactly.  Stateful loops are modelled with explicit fuel; `none`
marks a loop that makes no progress (the Rust original would not terminate)
or a slicing operation the Rust original would panic on.  Network traffic of
the LLM client is modelled by an oracle mapping each outbound request to the
upstream response category.  `f32` configuration values are carried as `ℚ`;
only their presence or absence matters to any statement here.
-/

namespace LlmOverDns

/-! ## Definitions: src/chunker.rs -/

/-- Byte length of a text (Rust `str::len`), as the sum of the UTF-8 sizes of
its characters. -/
def utf8Len (s : List Char) : Nat :=
  s.foldr (fun c n => c.utf8Size + n) 0

/-- Rust `str::is_char_boundary i`: `i` is `0`, or lands exactly between
encoded characters; positions past the end or inside a multi-byte character
are not boundaries. -/
def isCharBoundary : List Char → Nat → Bool
  | _, 0 => true
  | [], _ + 1 => false
  | c :: cs, i + 1 =>
      if i + 1 < c.utf8Size then false else isCharBoundary cs (i + 1 - c.utf8Size)

/-- Backward scan of `Chunker::find_char_boundary`: from index `i` downward,
the first valid boundary (index `0` always qualifies). -/
def boundarySearch (s : List Char) : Nat → Nat
  | 0 => 0
  | i + 1 => if isCharBoundary s (i + 1) then i + 1 else boundarySearch s i

/-- `Chunker::find_char_boundary(text, max_bytes)`: largest valid character
boundary at or before `min max_bytes (byte length)`. -/
def find_char_boundary (s : List Char) (maxBytes : Nat) : Nat :=
  boundarySearch s (min maxBytes (utf8Len s))

/-- Rust `str::split_at` on a byte index: `none` when the index is not a
character boundary (the Rust call would panic there). -/
def splitAtByte : List Char → Nat → Option (List Char × List Char)
  | s, 0 => some ([], s)
  | [], _ + 1 => none
  | c :: cs, i + 1 =>
      if c.utf8Size ≤ i + 1 then
        match splitAtByte cs (i + 1 - c.utf8Size) with
        | some (a, b) => some (c :: a, b)
        | none => none
      else none

/-- `Chunker::truncate_to_char_boundary(text, max_bytes)`: identity when the
text already fits, otherwise the prefix ending at
`find_char_boundary text max_bytes` (that index is always a boundary, so the
`getD` default is never taken). -/
def truncate_to_char_boundary (text : List Char) (maxBytes : Nat) : List Char :=
  if utf8Len text ≤ maxBytes then text
  else ((splitAtByte text (find_char_boundary text maxBytes)).map Prod.fst).getD text

/-- The `while !remaining.is_empty()` loop of `Chunker::chunk_text`, with
explicit fuel.  Each round cuts `find_char_boundary remaining
(min maxChunk (len remaining))` bytes; when that split point is `0` the
remainder never shrinks and the Rust loop runs forever, which surfaces here
as `none` for every fuel value. -/
def chunkLoop (maxChunk : Nat) : Nat → List Char → Option (List (List Char))
  | _, [] => some []
  | 0, _ :: _ => none
  | fuel + 1, c :: cs =>
      match splitAtByte (c :: cs)
          (find_char_boundary (c :: cs) (min maxChunk (utf8Len (c :: cs)))) with
      | none => none
      | some (chunk, rest) =>
          match chunkLoop maxChunk fuel rest with
          | none => none
          | some l => some (chunk :: l)

/-- Lines 70-91 of `Chunker::chunk_text`, operating on the already-truncated
text: text that fits in one chunk is returned whole, otherwise the cutting
loop runs (fuel `utf8Len t` suffices whenever every round makes progress). -/
def chunkMain (maxChunk : Nat) (t : List Char) : Option (List (List Char)) :=
  if utf8Len t ≤ maxChunk then some [t]
  else chunkLoop maxChunk (utf8Len t) t

/-- `Chunker::chunk_text` for a chunker with sizes `maxChunk`, `maxTotal`:
empty input gives no chunks; over-long input is first truncated to a
character boundary at or before `maxTotal`; the rest of the splitting is
`chunkMain`. -/
def chunk_text (maxChunk maxTotal : Nat) (text : List Char) : Option (List (List Char)) :=
  if text = [] then some []
  else
    chunkMain maxChunk
      (if maxTotal < utf8Len text then truncate_to_char_boundary text maxTotal else text)

/-- `max_chunk_size` of `Chunker::new()` used by the server. -/
def defaultMaxChunk : Nat := 250

/-- `max_total_size` of `Chunker::new()` used by the server. -/
def defaultMaxTotal : Nat := 4096

/-! ## Definitions: src/dns_handler.rs -/

/-- Rust `char::is_whitespace`: the Unicode `White_Space` property, written
out code point by code point. -/
def isRustWhitespace (c : Char) : Bool :=
  let n := c.toNat
  (decide (9 ≤ n) && decide (n ≤ 13)) || decide (n = 32) || decide (n = 133) ||
    decide (n = 160) || decide (n = 5760) ||
    (decide (8192 ≤ n) && decide (n ≤ 8202)) || decide (n = 8232) ||
    decide (n = 8233) || decide (n = 8239) || decide (n = 8287) || decide (n = 12288)

/-- The separator character stripped by `parse_subdomain`. -/
def isDot (c : Char) : Bool := c = '.'

/-- Removal of a maximal suffix of characters satisfying `p`; shared shape of
Rust `str::trim_end` and `str::trim_end_matches`. -/
def dropTrailing (p : Char → Bool) (s : List Char) : List Char :=
  (s.reverse.dropWhile p).reverse

/-- Rust `str::trim`: maximal whitespace prefix and suffix removed. -/
def rustTrim (s : List Char) : List Char :=
  dropTrailing isRustWhitespace (s.dropWhile isRustWhitespace)

/-- Rust `str::trim_end_matches('.')`: every trailing dot removed. -/
def trimEndMatchesDot (s : List Char) : List Char :=
  dropTrailing isDot s

/-- The error of `DnsHandler::parse_subdomain` (the `anyhow` message text is
irrelevant to every claim). -/
inductive DnsError
  | emptyQuery
deriving DecidableEq

/-- Decidable equality of `Except` values, for concrete evaluation. -/
instance {ε α : Type} [DecidableEq ε] [DecidableEq α] : DecidableEq (Except ε α) :=
  fun x y =>
    match x, y with
    | Except.ok a, Except.ok b =>
        if h : a = b then isTrue (h ▸ rfl)
        else isFalse fun hh => h (Except.ok.inj hh)
    | Except.error e, Except.error f =>
        if h : e = f then isTrue (h ▸ rfl)
        else isFalse fun hh => h (Except.error.inj hh)
    | Except.ok _, Except.error _ => isFalse fun hh => Except.noConfusion hh
    | Except.error _, Except.ok _ => isFalse fun hh => Except.noConfusion hh

/-- `DnsHandler::parse_subdomain`: trim whitespace, strip trailing dots
(`query` of the source, written out), fail if the remainder is empty,
otherwise return it verbatim. -/
def parse_subdomain (domain : List Char) : Except DnsError (List Char) :=
  if trimEndMatchesDot (rustTrim domain) = [] then Except.error DnsError.emptyQuery
  else Except.ok (trimEndMatchesDot (rustTrim domain))

/-- `DnsHandler::is_valid_txt_query`: TXT record type code is 16. -/
def is_valid_txt_query (queryType : Nat) : Bool := queryType = 16

/-- Modelled from the spec (§4.2, C4's wording): trailing-character removal
written as a single right fold instead of the reverse/dropWhile of the
embedding, used to compare the two formulations. -/
def stripTrailingSpec (p : Char → Bool) (s : List Char) : List Char :=
  s.foldr (fun c r => if r = [] ∧ p c = true then [] else c :: r) []

/-- Modelled from the spec (§4.2): trim as "remove leading whitespace, then
remove trailing whitespace", with the trailing half expressed by
`stripTrailingSpec`. -/
def trimSpecWords (s : List Char) : List Char :=
  stripTrailingSpec isRustWhitespace (s.dropWhile isRustWhitespace)

/-- Modelled from the spec (§4.2): extraction that strips exactly ONE
trailing separator character, as claim C4 words it. -/
def specExtractExactlyOne (s : List Char) : Except DnsError (List Char) :=
  let t := rustTrim s
  let q := if t.getLast? = some '.' then t.dropLast else t
  if q = [] then Except.error DnsError.emptyQuery else Except.ok q

/-! ## Definitions: src/llm_client.rs -/

/-- `Message` of the OpenRouter request body. -/
structure Message where
  role : List Char
  content : List Char
deriving DecidableEq

/-- `OpenRouterRequest`: exactly the two fields of the source struct. -/
structure OpenRouterRequest where
  model : List Char
  messages : List Message
deriving DecidableEq

/-- JSON values, as produced by the derived serde serializers. -/
inductive Json
  | str (s : List Char)
  | arr (elems : List Json)
  | obj (fields : List (List Char × Json))

/-- Top-level keys of a serialized JSON object. -/
def Json.objKeys : Json → List (List Char)
  | .obj fields => fields.map Prod.fst
  | _ => []

/-- The literal text `system`. -/
def systemRole : List Char := ['s', 'y', 's', 't', 'e', 'm']

/-- The literal text `user`. -/
def userRole : List Char := ['u', 's', 'e', 'r']

/-- The serde key `role`. -/
def roleKey : List Char := ['r', 'o', 'l', 'e']

/-- The serde key `content`. -/
def contentKey : List Char := ['c', 'o', 'n', 't', 'e', 'n', 't']

/-- The serde key `model`. -/
def modelKey : List Char := ['m', 'o', 'd', 'e', 'l']

/-- The serde key `messages`. -/
def messagesKey : List Char := ['m', 'e', 's', 's', 'a', 'g', 'e', 's']

/-- The would-be serde key `temperature` (no such field exists in the source
request struct). -/
def temperatureKey : List Char :=
  ['t', 'e', 'm', 'p', 'e', 'r', 'a', 't', 'u', 'r', 'e']

/-- The would-be serde key `max_tokens`. -/
def maxTokensKey : List Char := ['m', 'a', 'x', '_', 't', 'o', 'k', 'e', 'n', 's']

/-- The would-be serde key `top_p`. -/
def topPKey : List Char := ['t', 'o', 'p', '_', 'p']

/-- The would-be serde key `top_k`. -/
def topKKey : List Char := ['t', 'o', 'p', '_', 'k']

/-- The would-be serde key `frequency_penalty`. -/
def frequencyPenaltyKey : List Char :=
  ['f', 'r', 'e', 'q', 'u', 'e', 'n', 'c', 'y', '_', 'p', 'e', 'n', 'a', 'l', 't', 'y']

/-- The would-be serde key `presence_penalty`. -/
def presencePenaltyKey : List Char :=
  ['p', 'r', 'e', 's', 'e', 'n', 'c', 'e', '_', 'p', 'e', 'n', 'a', 'l', 't', 'y']

/-- Serde serialization of `Message` (derived: fields in declaration order). -/
def serializeMessage (m : Message) : Json :=
  Json.obj [(roleKey, Json.str m.role), (contentKey, Json.str m.content)]

/-- Serde serialization of `OpenRouterRequest` (derived: fields in
declaration order). -/
def serializeRequest (r : OpenRouterRequest) : Json :=
  Json.obj
    [(modelKey, Json.str r.model),
     (messagesKey, Json.arr (r.messages.map serializeMessage))]

/-- The request payload built by `LlmClient::query_single_model` (llm_client.rs
148-160): the model identifier plus the system-role and user-role messages, in
that order. -/
def buildRequest (systemPrompt prompt model : List Char) : OpenRouterRequest :=
  ⟨model, [⟨systemRole, systemPrompt⟩, ⟨userRole, prompt⟩]⟩

/-- Categorized upstream response for one model attempt: HTTP status plus the
parts of the body the client inspects, or a transport/parse failure. -/
inductive ApiResponse
  | ok200 (choices : List (List Char))
  | status429
  | status404
  | status500
  | status401
  | status400 (body : List Char)
  | otherStatus (code : Nat) (body : List Char)
  | sendFailure
  | malformedBody
deriving DecidableEq

/-- The errors `LlmClient` produces (the `anyhow` message texts are carried
only through their category and captured data). -/
inductive ModelError
  | emptyPrompt
  | networkFailure
  | malformedResponse
  | noChoices
  | rateLimited
  | notFoundOrPolicy
  | serverError500
  | unauthorized
  | badRequest (body : List Char)
  | unexpectedStatus (code : Nat) (body : List Char)
  | noSpecificError
deriving DecidableEq

/-- `LlmClient::query_single_model`: build the payload, submit it (the oracle
`api` supplies the upstream behaviour for the submitted request), then map
the response status exactly as the source match does; on 200 an empty
`choices` is an error, otherwise the first choice's content is returned. -/
def querySingleModel (api : OpenRouterRequest → ApiResponse)
    (systemPrompt prompt model : List Char) : Except ModelError (List Char) :=
  match api (buildRequest systemPrompt prompt model) with
  | .sendFailure => Except.error ModelError.networkFailure
  | .ok200 choices =>
      match choices with
      | [] => Except.error ModelError.noChoices
      | c :: _ => Except.ok c
  | .malformedBody => Except.error ModelError.malformedResponse
  | .status429 => Except.error ModelError.rateLimited
  | .status404 => Except.error ModelError.notFoundOrPolicy
  | .status500 => Except.error ModelError.serverError500
  | .status401 => Except.error ModelError.unauthorized
  | .status400 body => Except.error (ModelError.badRequest body)
  | .otherStatus code body => Except.error (ModelError.unexpectedStatus code body)

/-- The fallback loop of `LlmClient::query` (llm_client.rs 110-137), carrying
the `last_error` slot; alongside the result it returns the ordered list of
models actually attempted. -/
def queryLoop (api : OpenRouterRequest → ApiResponse) (systemPrompt prompt : List Char) :
    List (List Char) → Option ModelError → Except ModelError (List Char) × List (List Char)
  | [], lastError =>
      (Except.error (lastError.getD ModelError.noSpecificError), [])
  | model :: rest, _lastError =>
      match querySingleModel api systemPrompt prompt model with
      | Except.ok response => (Except.ok response, [model])
      | Except.error e =>
          let r := queryLoop api systemPrompt prompt rest (some e)
          (r.1, model :: r.2)

/-- The state of a constructed `LlmClient` (the HTTP client and base URL
carry no information any claim depends on). -/
structure ClientState where
  api_key : List Char
  models : List (List Char)
  system_prompt : List Char
deriving DecidableEq

/-- Construction errors of `LlmClient::new`. -/
inductive ClientError
  | emptyApiKey
  | emptyModels
deriving DecidableEq

/-- `LlmClient::new`: rejects an empty key or an empty model list. -/
def LlmClient.new (apiKey : List Char) (models : List (List Char))
    (systemPrompt : List Char) : Except ClientError ClientState :=
  if apiKey = [] then Except.error ClientError.emptyApiKey
  else if models = [] then Except.error ClientError.emptyModels
  else Except.ok ⟨apiKey, models, systemPrompt⟩

/-- `LlmClient::query`: empty prompts are rejected before any network call;
otherwise the fallback loop runs over the configured models. -/
def LlmClient.query (api : OpenRouterRequest → ApiResponse) (st : ClientState)
    (prompt : List Char) : Except ModelError (List Char) × List (List Char) :=
  if prompt = [] then (Except.error ModelError.emptyPrompt, [])
  else queryLoop api st.system_prompt prompt st.models none

/-! ## Definitions: src/config.rs and the server wiring -/

/-- `Config` (config.rs 51-74).  `f32` sampling values are carried as `ℚ`
(only their presence matters to any claim); `u16`/`u32` as `Nat`. -/
structure Config where
  openrouter_api_key : List Char
  openrouter_models : List (List Char)
  system_prompt : List Char
  dns_port : Nat
  dns_address : List Char
  temperature : Option ℚ
  max_tokens : Option Nat
  top_p : Option ℚ
  top_k : Option Nat
  frequency_penalty : Option ℚ
  presence_penalty : Option ℚ

/-- The serialized payload of one model attempt, for a client wired up by
`Server::new` (server.rs 161-167): the client receives only the key, the
model list and the system prompt from the configuration. -/
def requestPayloadOfConfig (cfg : Config) (prompt model : List Char) : Option Json :=
  match LlmClient.new cfg.openrouter_api_key cfg.openrouter_models cfg.system_prompt with
  | Except.error _ => none
  | Except.ok st => some (serializeRequest (buildRequest st.system_prompt prompt model))

/-- A configuration with every optional sampling parameter set. -/
def cfgEx : Config :=
  ⟨['k'], [['m']], ['s'], 53, [],
    some ((7 : ℚ) / 10), some 500, some ((9 : ℚ) / 10), some 40,
    some ((1 : ℚ) / 2), some ((1 : ℚ) / 2)⟩

/-! ## Definitions: src/server.rs -/

/-- One answer record as built by `LlmDnsHandler::process_query`: the queried
name, a TTL, and the TXT strings of the record (`TXT::new(vec![chunk])` holds
exactly one string). -/
structure DnsRecord where
  name : List Char
  ttl : Nat
  txtData : List (List Char)
deriving DecidableEq

/-- A pipeline failure inside `process_query` (propagated by `?`). -/
inductive PipelineError
  | parseFailed (e : DnsError)
  | llmFailed (e : ModelError)
deriving DecidableEq

/-- `LlmDnsHandler::process_query` (server.rs 88-127): parse the query text
into a prompt, query the LLM, chunk the answer with the default chunker, and
build one 300-second-TTL TXT record per chunk, in chunk order.  `none`
propagates a non-terminating chunker run (never reached at the default
sizes). -/
def processQuery (api : OpenRouterRequest → ApiResponse) (st : ClientState)
    (name : List Char) : Option (Except PipelineError (List DnsRecord)) :=
  match parse_subdomain name with
  | Except.error e => some (Except.error (PipelineError.parseFailed e))
  | Except.ok prompt =>
      match (LlmClient.query api st prompt).1 with
      | Except.error e => some (Except.error (PipelineError.llmFailed e))
      | Except.ok responseText =>
          match chunk_text defaultMaxChunk defaultMaxTotal responseText with
          | none => none
          | some chunks =>
              some (Except.ok (chunks.map fun chunk => ⟨name, 300, [chunk]⟩))

/-- One question of an inbound DNS message: its name text and its record
type code (TXT = 16). -/
structure DnsQuery where
  name : List Char
  queryType : Nat
deriving DecidableEq

/-- The response codes `handle_dns_request` can set. -/
inductive ResponseCode
  | noError
  | notImp
  | servFail
deriving DecidableEq

/-- The per-query loop of `handle_dns_request` (server.rs 365-398): non-TXT
queries set the message status to NotImp and are skipped; a failing pipeline
sets ServFail and appends nothing; a successful pipeline appends its records
and leaves the status untouched. -/
def handleLoop (api : OpenRouterRequest → ApiResponse) (st : ClientState) :
    List DnsQuery → List DnsRecord → ResponseCode →
    Option (List DnsRecord × ResponseCode)
  | [], answers, code => some (answers, code)
  | q :: rest, answers, code =>
      if q.queryType = 16 then
        match processQuery api st q.name with
        | none => none
        | some (Except.ok records) => handleLoop api st rest (answers ++ records) code
        | some (Except.error _) => handleLoop api st rest answers ResponseCode.servFail
      else handleLoop api st rest answers ResponseCode.notImp

/-- `handle_dns_request`, restricted to the answer records and the response
code it accumulates over the message's queries (header mirroring carries no
content any claim depends on). -/
def handle_dns_request (api : OpenRouterRequest → ApiResponse) (st : ClientState)
    (queries : List DnsQuery) : Option (List DnsRecord × ResponseCode) :=
  handleLoop api st queries [] ResponseCode.noError

/-- Modelled from the spec (§4.4, C8's wording): the terminal status
condition one query contributes, if any. -/
def queryStatus (api : OpenRouterRequest → ApiResponse) (st : ClientState)
    (q : DnsQuery) : Option ResponseCode :=
  if q.queryType = 16 then
    match processQuery api st q.name with
    | some (Except.ok _) => none
    | _ => some ResponseCode.servFail
  else some ResponseCode.notImp

/-- Modelled from the spec (§4.4, C8's wording): the answer records one query
contributes. -/
def queryRecords (api : OpenRouterRequest → ApiResponse) (st : ClientState)
    (q : DnsQuery) : List DnsRecord :=
  if q.queryType = 16 then
    match processQuery api st q.name with
    | some (Except.ok records) => records
    | _ => []
  else []

/-- Oracle for the C6 witness: model `m1` is rate limited, every other
request succeeds with content `X`. -/
def apiEx : OpenRouterRequest → ApiResponse := fun r =>
  if r.model = ['m', '1'] then ApiResponse.status429 else ApiResponse.ok200 [['X']]

/-- Oracle for the C7 witness: model `m1` is rate limited, every other
request hits an upstream 500. -/
def apiAllFail : OpenRouterRequest → ApiResponse := fun r =>
  if r.model = ['m', '1'] then ApiResponse.status429 else ApiResponse.status500

/-- Oracle for the C8/C9 witnesses: every request succeeds with content
`ok`. -/
def apiOk : OpenRouterRequest → ApiResponse := fun _ =>
  ApiResponse.ok200 [['o', 'k']]

/-- A client state used by concrete server-side witnesses. -/
def stEx : ClientState := ⟨['k'], [['m']], ['s']⟩

/-! ## Lemmas: byte lengths and character boundaries -/

@[simp] theorem utf8Len_nil : utf8Len [] = 0 := rfl

@[simp] theorem utf8Len_cons (c : Char) (s : List Char) :
    utf8Len (c :: s) = c.utf8Size + utf8Len s := rfl

theorem utf8Len_append (a b : List Char) :
    utf8Len (a ++ b) = utf8Len a + utf8Len b := by
  induction a with
  | nil => simp
  | cons c a ih => simp [ih, Nat.add_assoc]

theorem utf8Len_pos_of_ne_nil {s : List Char} (h : s ≠ []) : 0 < utf8Len s := by
  cases s with
  | nil => exact absurd rfl h
  | cons c cs =>
      have := c.utf8Size_pos
      simp only [utf8Len_cons]
      omega

@[simp] theorem isCharBoundary_zero (s : List Char) : isCharBoundary s 0 = true := by
  cases s <;> rfl

theorem isCharBoundary_cons_add (c : Char) (cs : List Char) (n : Nat) :
    isCharBoundary (c :: cs) (c.utf8Size + n) = isCharBoundary cs n := by
  have h1 : 1 ≤ c.utf8Size := c.utf8Size_pos
  obtain ⟨k, hk⟩ : ∃ k, c.utf8Size + n = k + 1 := ⟨c.utf8Size + n - 1, by omega⟩
  rw [hk]
  show (if k + 1 < c.utf8Size then false else isCharBoundary cs (k + 1 - c.utf8Size)) = _
  rw [if_neg (by omega)]
  congr 1
  omega

theorem isCharBoundary_le {s : List Char} :
    ∀ {i : Nat}, isCharBoundary s i = true → i ≤ utf8Len s := by
  induction s with
  | nil =>
      intro i h
      cases i with
      | zero => simp
      | succ i => simp [isCharBoundary] at h
  | cons c cs ih =>
      intro i h
      cases i with
      | zero => simp
      | succ i =>
          simp only [isCharBoundary] at h
          split at h
          · exact absurd h (by simp)
          · rename_i hge
            have := ih h
            simp only [utf8Len_cons]
            omega

theorem isCharBoundary_append_utf8Len (a b : List Char) :
    isCharBoundary (a ++ b) (utf8Len a) = true := by
  induction a with
  | nil => simp
  | cons c a ih =>
      simp only [List.cons_append, utf8Len_cons]
      rw [isCharBoundary_cons_add]
      exact ih

theorem isCharBoundary_append_of_boundary (a b : List Char) :
    ∀ j, isCharBoundary a j = true → isCharBoundary (a ++ b) j = true := by
  induction a with
  | nil =>
      intro j h
      cases j with
      | zero => simp
      | succ j => simp [isCharBoundary] at h
  | cons c a ih =>
      intro j h
      cases j with
      | zero => simp
      | succ j =>
          simp only [isCharBoundary, List.cons_append] at h ⊢
          split at h
          · exact absurd h (by simp)
          · rename_i hge
            rw [if_neg hge]
            exact ih _ h

/-! ## Lemmas: `splitAtByte`, `boundarySearch`, truncation -/

theorem splitAtByte_spec (s : List Char) :
    ∀ i a b, splitAtByte s i = some (a, b) → a ++ b = s ∧ utf8Len a = i := by
  induction s with
  | nil =>
      intro i a b h
      cases i with
      | zero =>
          simp only [splitAtByte, Option.some_inj] at h
          obtain ⟨rfl, rfl⟩ := Prod.mk.injEq .. ▸ h
          simp
      | succ i => simp [splitAtByte] at h
  | cons c cs ih =>
      intro i a b h
      cases i with
      | zero =>
          simp only [splitAtByte, Option.some_inj] at h
          obtain ⟨rfl, rfl⟩ := Prod.mk.injEq .. ▸ h
          simp
      | succ i =>
          simp only [splitAtByte] at h
          split at h
          · rename_i hle
            cases hrec : splitAtByte cs (i + 1 - c.utf8Size) with
            | none => rw [hrec] at h; exact absurd h (by simp)
            | some p =>
                obtain ⟨a', b'⟩ := p
                rw [hrec] at h
                simp only [Option.some_inj] at h
                obtain ⟨rfl, rfl⟩ := Prod.mk.injEq .. ▸ h
                obtain ⟨heq, hlen⟩ := ih _ _ _ hrec
                constructor
                · simp [heq]
                · simp only [utf8Len_cons, hlen]
                  omega
          · exact absurd h (by simp)

theorem splitAtByte_isSome_of_boundary (s : List Char) :
    ∀ i, isCharBoundary s i = true → ∃ a b, splitAtByte s i = some (a, b) := by
  induction s with
  | nil =>
      intro i h
      cases i with
      | zero => exact ⟨[], [], rfl⟩
      | succ i => simp [isCharBoundary] at h
  | cons c cs ih =>
      intro i h
      cases i with
      | zero => exact ⟨[], c :: cs, rfl⟩
      | succ i =>
          simp only [isCharBoundary] at h
          split at h
          · exact absurd h (by simp)
          · rename_i hge
            obtain ⟨a, b, hab⟩ := ih _ h
            refine ⟨c :: a, b, ?_⟩
            simp only [splitAtByte, if_pos (by omega : c.utf8Size ≤ i + 1), hab]

theorem boundarySearch_le (s : List Char) : ∀ i, boundarySearch s i ≤ i := by
  intro i
  induction i with
  | zero => simp [boundarySearch]
  | succ i ih =>
      simp only [boundarySearch]
      split
      · exact Nat.le_refl _
      · exact Nat.le_trans ih (Nat.le_succ _)

theorem boundarySearch_isBoundary (s : List Char) :
    ∀ i, isCharBoundary s (boundarySearch s i) = true := by
  intro i
  induction i with
  | zero => simp [boundarySearch]
  | succ i ih =>
      simp only [boundarySearch]
      split
      · assumption
      · exact ih

theorem le_boundarySearch_of_boundary (s : List Char) {j : Nat}
    (hj : isCharBoundary s j = true) : ∀ i, j ≤ i → j ≤ boundarySearch s i := by
  intro i
  induction i with
  | zero => intro h; exact h.trans (Nat.zero_le _)
  | succ i ih =>
      intro h
      simp only [boundarySearch]
      split
      · exact h
      · rename_i hnb
        refine ih ?_
        rcases Nat.lt_or_ge j (i + 1) with hlt | hge
        · omega
        · exact absurd (Nat.le_antisymm h hge ▸ hj) (by simp [hnb])

theorem find_char_boundary_isBoundary (s : List Char) (m : Nat) :
    isCharBoundary s (find_char_boundary s m) = true :=
  boundarySearch_isBoundary s _

theorem find_char_boundary_le (s : List Char) (m : Nat) :
    find_char_boundary s m ≤ min m (utf8Len s) :=
  boundarySearch_le s _

theorem le_find_char_boundary (s : List Char) {j m : Nat}
    (hj : isCharBoundary s j = true) (hjm : j ≤ m) :
    j ≤ find_char_boundary s m :=
  le_boundarySearch_of_boundary s hj _ (Nat.le_min.2 ⟨hjm, isCharBoundary_le hj⟩)

theorem truncate_eq_of_le {text : List Char} {T : Nat} (h : utf8Len text ≤ T) :
    truncate_to_char_boundary text T = text := by
  simp [truncate_to_char_boundary, h]

theorem truncate_spec {text : List Char} {T : Nat} (h : T < utf8Len text) :
    ∃ b, truncate_to_char_boundary text T ++ b = text ∧
      utf8Len (truncate_to_char_boundary text T) = find_char_boundary text T := by
  obtain ⟨a, b, hab⟩ :=
    splitAtByte_isSome_of_boundary text _ (find_char_boundary_isBoundary text T)
  obtain ⟨heq, hlen⟩ := splitAtByte_spec text _ _ _ hab
  have htr : truncate_to_char_boundary text T = a := by
    simp [truncate_to_char_boundary, Nat.not_le.2 h, hab]
  exact ⟨b, by rw [htr]; exact heq, by rw [htr]; exact hlen⟩

theorem truncate_prefix (text : List Char) (T : Nat) :
    ∃ b, truncate_to_char_boundary text T ++ b = text := by
  by_cases h : utf8Len text ≤ T
  · exact ⟨[], by simp [truncate_eq_of_le h]⟩
  · obtain ⟨b, hb, _⟩ := truncate_spec (Nat.not_le.1 h)
    exact ⟨b, hb⟩

/-! ## Lemmas: the chunking loop -/

theorem chunkLoop_spec (mc : Nat) :
    ∀ fuel r l, chunkLoop mc fuel r = some l →
      l.flatten = r ∧ ∀ ch ∈ l, utf8Len ch ≤ mc := by
  intro fuel
  induction fuel with
  | zero =>
      intro r l h
      cases r with
      | nil =>
          simp only [chunkLoop, Option.some_inj] at h
          subst h
          simp
      | cons c cs => simp [chunkLoop] at h
  | succ fuel ih =>
      intro r l h
      cases r with
      | nil =>
          simp only [chunkLoop, Option.some_inj] at h
          subst h
          simp
      | cons c cs =>
          simp only [chunkLoop] at h
          cases hsplit : splitAtByte (c :: cs)
              (find_char_boundary (c :: cs) (min mc (utf8Len (c :: cs)))) with
          | none => rw [hsplit] at h; exact absurd h (by simp)
          | some p =>
              obtain ⟨chunk, rest⟩ := p
              rw [hsplit] at h
              dsimp only at h
              cases hrec : chunkLoop mc fuel rest with
              | none => rw [hrec] at h; exact absurd h (by simp)
              | some l' =>
                  rw [hrec] at h
                  dsimp only at h
                  simp only [Option.some_inj] at h
                  subst h
                  obtain ⟨hflat, hsizes⟩ := ih rest l' hrec
                  obtain ⟨heq, hlen⟩ := splitAtByte_spec _ _ _ _ hsplit
                  refine ⟨by simp [hflat, heq], ?_⟩
                  intro ch hch
                  rcases List.mem_cons.1 hch with rfl | hmem
                  · rw [hlen]
                    have h1 := find_char_boundary_le (c :: cs) (min mc (utf8Len (c :: cs)))
                    omega
                  · exact hsizes ch hmem

theorem chunkMain_spec (mc : Nat) (t : List Char) (l : List (List Char))
    (h : chunkMain mc t = some l) :
    l.flatten = t ∧ ∀ ch ∈ l, utf8Len ch ≤ mc := by
  unfold chunkMain at h
  split at h
  · rename_i hle
    simp only [Option.some_inj] at h
    subst h
    refine ⟨by simp, ?_⟩
    intro ch hch
    rcases List.mem_singleton.1 hch with rfl
    exact hle
  · exact chunkLoop_spec mc _ t l h

theorem chunk_text_spec (mc T : Nat) (text : List Char) (l : List (List Char))
    (h : chunk_text mc T text = some l) :
    l.flatten = truncate_to_char_boundary text T ∧ ∀ ch ∈ l, utf8Len ch ≤ mc := by
  unfold chunk_text at h
  split at h
  · rename_i he
    subst he
    simp only [Option.some_inj] at h
    subst h
    have htr := truncate_eq_of_le (show utf8Len ([] : List Char) ≤ T by simp)
    exact ⟨by simp [htr], by simp⟩
  · by_cases hT : T < utf8Len text
    · rw [if_pos hT] at h
      exact chunkMain_spec mc _ l h
    · rw [if_neg hT] at h
      obtain ⟨hflat, hsz⟩ := chunkMain_spec mc _ l h
      exact ⟨by rw [hflat, truncate_eq_of_le (Nat.not_lt.1 hT)], hsz⟩

/-! ## Claim C1 -/

/-- C1: for every input text and every chunk size `C > 0`, every chunk
produced by `Chunker::chunk_text` has byte length at most `C`, and every cut
position (the byte offset after each chunk) is a valid character boundary of
the input — no chunk boundary falls inside a multi-byte encoded
character. -/
theorem chunkText_size_bound_and_char_boundaries
    (C T : Nat) (hC : 0 < C) (text : List Char) (chunks : List (List Char))
    (h : chunk_text C T text = some chunks) :
    (∀ ch ∈ chunks, utf8Len ch ≤ C) ∧
    (∀ k, isCharBoundary text (utf8Len (List.flatten (List.take k chunks))) = true) := by
  obtain ⟨hflat, hsz⟩ := chunk_text_spec C T text chunks h
  refine ⟨hsz, fun k => ?_⟩
  obtain ⟨b, hb⟩ := truncate_prefix text T
  have h1 : List.flatten (List.take k chunks) ++
      (List.flatten (List.drop k chunks) ++ b) = text := by
    rw [← List.append_assoc, ← List.flatten_append, List.take_append_drop, hflat, hb]
  rw [← h1]
  exact isCharBoundary_append_utf8Len _ _

/-- Witness for C1: a two-chunk split of `🎉🌟` at chunk size 4. -/
theorem chunkText_size_bound_and_char_boundaries_witness :
    (∀ ch ∈ [['🎉'], ['🌟']], utf8Len ch ≤ 4) ∧
    (∀ k, isCharBoundary ['🎉', '🌟']
      (utf8Len (List.flatten (List.take k [['🎉'], ['🌟']]))) = true) :=
  chunkText_size_bound_and_char_boundaries 4 4096 (by decide) ['🎉', '🌟']
    [['🎉'], ['🌟']] (by decide)

/-! ## Claim C2 -/

/-- C2: the concatenation of the chunks equals the input truncated at the
greatest character boundary at or before `T` bytes (so it equals the input
itself whenever the input fits in `T` bytes, and is otherwise the longest
character-aligned prefix of byte length at most `T`); chunking the empty
text yields the empty list, not a singleton empty chunk. -/
theorem chunkText_concat_eq_truncation
    (C T : Nat) (text : List Char) (chunks : List (List Char))
    (h : chunk_text C T text = some chunks) :
    chunks.flatten = truncate_to_char_boundary text T ∧
    (utf8Len text ≤ T → chunks.flatten = text) ∧
    (∃ rest, chunks.flatten ++ rest = text) ∧
    (T < utf8Len text →
      utf8Len chunks.flatten ≤ T ∧
      ∀ p q, p ++ q = text → utf8Len p ≤ T → utf8Len p ≤ utf8Len chunks.flatten) ∧
    chunk_text C T ([] : List Char) = some [] := by
  obtain ⟨hflat, _⟩ := chunk_text_spec C T text chunks h
  refine ⟨hflat, ?_, ?_, ?_, rfl⟩
  · intro hle
    rw [hflat, truncate_eq_of_le hle]
  · rw [hflat]
    exact truncate_prefix text T
  · intro hT
    obtain ⟨b, hb, hlen⟩ := truncate_spec hT
    constructor
    · rw [hflat, hlen]
      have h1 := find_char_boundary_le text T
      omega
    · intro p q hpq hple
      rw [hflat, hlen]
      have hbd : isCharBoundary text (utf8Len p) = true := by
        rw [← hpq]
        exact isCharBoundary_append_utf8Len p q
      exact le_find_char_boundary text hbd hple

/-- Witness for C2: `abc` at chunk size 2 splits as `ab`/`c` and
concatenates back to the untruncated input. -/
theorem chunkText_concat_eq_truncation_witness :
    ([['a', 'b'], ['c']] : List (List Char)).flatten =
      truncate_to_char_boundary ['a', 'b', 'c'] 4096 ∧
    (utf8Len ['a', 'b', 'c'] ≤ 4096 →
      ([['a', 'b'], ['c']] : List (List Char)).flatten = ['a', 'b', 'c']) ∧
    (∃ rest, ([['a', 'b'], ['c']] : List (List Char)).flatten ++ rest = ['a', 'b', 'c']) ∧
    (4096 < utf8Len ['a', 'b', 'c'] →
      utf8Len ([['a', 'b'], ['c']] : List (List Char)).flatten ≤ 4096 ∧
      ∀ p q, p ++ q = ['a', 'b', 'c'] → utf8Len p ≤ 4096 →
        utf8Len p ≤ utf8Len ([['a', 'b'], ['c']] : List (List Char)).flatten) ∧
    chunk_text 2 4096 ([] : List Char) = some [] :=
  chunkText_concat_eq_truncation 2 4096 ['a', 'b', 'c'] [['a', 'b'], ['c']] (by decide)

/-! ## Claim C3 -/

/-- C3 (code bug): the claim — and the spec — say the chunking loop always
terminates for any `maxChunkSize > 0`, but at `max_chunk_size = 3` on the
text `🎉🎉` (each character 4 bytes) `find_char_boundary` returns `0`, the
loop splits off an empty chunk, the remainder never shrinks, and the Rust
`while` loop runs forever: the fuelled loop returns `none` for every fuel
value, and so does `chunk_text` with those settings. -/
theorem chunkLoop_diverges_at_small_chunk_size :
    (∀ fuel, chunkLoop 3 fuel ['🎉', '🎉'] = none) ∧
    chunk_text 3 4096 ['🎉', '🎉'] = none := by
  have hstep : ∀ fuel, chunkLoop 3 (fuel + 1) ['🎉', '🎉'] =
      match chunkLoop 3 fuel ['🎉', '🎉'] with
      | none => none
      | some l => some ([] :: l) := fun _ => rfl
  have hmain : ∀ fuel, chunkLoop 3 fuel ['🎉', '🎉'] = none := by
    intro fuel
    induction fuel with
    | zero => rfl
    | succ fuel ih => rw [hstep fuel, ih]
  exact ⟨hmain, by decide⟩

/-! ## Lemmas: trimming and dot-stripping -/

theorem dropWhile_head_not (p : Char → Bool) :
    ∀ {l : List Char} {c : Char}, (l.dropWhile p).head? = some c → p c = false := by
  intro l
  induction l with
  | nil => intro c h; simp at h
  | cons d l ih =>
      intro c h
      rw [List.dropWhile_cons] at h
      split at h
      · exact ih h
      · rename_i hd
        simp only [List.head?_cons, Option.some_inj] at h
        subst h
        simpa using hd

theorem dropWhile_eq_self (p : Char → Bool) {l : List Char}
    (h : ∀ c, l.head? = some c → p c = false) : l.dropWhile p = l := by
  cases l with
  | nil => rfl
  | cons d l =>
      rw [List.dropWhile_cons, if_neg]
      simp [h d rfl]

theorem dropTrailing_append (p : Char → Bool) (l : List Char) :
    ∃ t, dropTrailing p l ++ t = l := by
  refine ⟨(l.reverse.takeWhile p).reverse, ?_⟩
  rw [dropTrailing, ← List.reverse_append, List.takeWhile_append_dropWhile,
    List.reverse_reverse]

theorem dropTrailing_getLast_not (p : Char → Bool) (l : List Char) {c : Char}
    (h : (dropTrailing p l).getLast? = some c) : p c = false := by
  rw [dropTrailing, List.getLast?_reverse] at h
  exact dropWhile_head_not p h

theorem dropTrailing_eq_self (p : Char → Bool) {l : List Char}
    (h : ∀ c, l.getLast? = some c → p c = false) : dropTrailing p l = l := by
  have h2 : ∀ c, l.reverse.head? = some c → p c = false := by
    intro c hc
    rw [List.head?_reverse] at hc
    exact h c hc
  rw [dropTrailing, dropWhile_eq_self p h2, List.reverse_reverse]

theorem dropWhile_append_singleton (p : Char → Bool) (c : Char) :
    ∀ xs : List Char, (xs ++ [c]).dropWhile p =
      if xs.dropWhile p = [] then (if p c then [] else [c])
      else xs.dropWhile p ++ [c] := by
  intro xs
  induction xs with
  | nil => simp [List.dropWhile_cons, List.dropWhile_nil]
  | cons d xs ih =>
      rw [List.cons_append, List.dropWhile_cons, List.dropWhile_cons]
      split
      · exact ih
      · rename_i hd
        rw [if_neg (by simp)]
        rfl

theorem stripTrailingSpec_eq_dropTrailing (p : Char → Bool) :
    ∀ l : List Char, stripTrailingSpec p l = dropTrailing p l := by
  intro l
  induction l with
  | nil => rfl
  | cons c l ih =>
      have hsplit : dropTrailing p (c :: l) =
          if l.reverse.dropWhile p = [] then (if p c = true then [] else [c])
          else c :: dropTrailing p l := by
        rw [dropTrailing, show (c :: l).reverse = l.reverse ++ [c] from by simp,
          dropWhile_append_singleton]
        by_cases hnil : l.reverse.dropWhile p = []
        · rw [if_pos hnil, if_pos hnil]
          by_cases hc : p c = true
          · rw [if_pos hc]
            rfl
          · rw [if_neg hc]
            rfl
        · rw [if_neg hnil, if_neg hnil, List.reverse_append]
          simp [dropTrailing]
      have hiff : (dropTrailing p l = []) ↔ (l.reverse.dropWhile p = []) := by
        rw [dropTrailing, List.reverse_eq_nil_iff]
      show (if stripTrailingSpec p l = [] ∧ p c = true then []
        else c :: stripTrailingSpec p l) = dropTrailing p (c :: l)
      rw [ih, hsplit]
      by_cases hnil : l.reverse.dropWhile p = []
      · rw [if_pos hnil]
        by_cases hc : p c = true
        · rw [if_pos ⟨hiff.2 hnil, hc⟩, if_pos hc]
        · rw [if_neg (by simp [hc]), if_neg hc, hiff.2 hnil]
      · rw [if_neg hnil,
          if_neg (by rintro ⟨h1, _⟩; exact hnil (hiff.1 h1))]

/-! ## Claim C4 -/

/-- C4 (counterexample): on input `a..`, the code — `trim_end_matches('.')` —
strips BOTH trailing dots and returns `a`, while the claim's
"strip exactly one trailing separator" would return `a.`. -/
theorem parse_subdomain_strips_more_than_one_dot :
    parse_subdomain ['a', '.', '.'] = Except.ok ['a'] ∧
    specExtractExactlyOne ['a', '.', '.'] = Except.ok ['a', '.'] ∧
    (['a'] : List Char) ≠ ['a', '.'] := by
  refine ⟨by decide, by decide, by decide⟩

/-- C4 (amended): extraction trims leading and trailing whitespace and then
strips ALL trailing separator (`.`) characters, returns the remainder
verbatim, and fails with the empty-query error exactly when that remainder
is empty; `extract "hello world." = ok "hello world"`, and `extract "."` and
`extract "  "` both fail.  The trailing-stripping is characterised against
an independently defined right-fold formulation. -/
theorem parse_subdomain_trim_strip_all_characterisation :
    (∀ s : List Char,
      (parse_subdomain s = Except.ok (stripTrailingSpec isDot (trimSpecWords s)) ∧
        stripTrailingSpec isDot (trimSpecWords s) ≠ []) ∨
      (parse_subdomain s = Except.error DnsError.emptyQuery ∧
        stripTrailingSpec isDot (trimSpecWords s) = [])) ∧
    parse_subdomain ['h', 'e', 'l', 'l', 'o', ' ', 'w', 'o', 'r', 'l', 'd', '.'] =
      Except.ok ['h', 'e', 'l', 'l', 'o', ' ', 'w', 'o', 'r', 'l', 'd'] ∧
    parse_subdomain ['.'] = Except.error DnsError.emptyQuery ∧
    parse_subdomain [' ', ' '] = Except.error DnsError.emptyQuery := by
  refine ⟨?_, by decide, by decide, by decide⟩
  intro s
  have hspec : stripTrailingSpec isDot (trimSpecWords s) =
      trimEndMatchesDot (rustTrim s) := by
    rw [trimSpecWords, stripTrailingSpec_eq_dropTrailing, stripTrailingSpec_eq_dropTrailing]
    rfl
  rw [hspec]
  unfold parse_subdomain
  by_cases h : trimEndMatchesDot (rustTrim s) = []
  · right
    simp [h]
  · left
    simp [h]

/-! ## Claim C10 -/

/-- C10 (counterexample): extraction is not idempotent.  On input `. .`
(dot, space, dot) it succeeds with `. ` — dot-stripping exposed a trailing
space — and re-running extraction on that result fails with the empty-query
error instead of returning it unchanged. -/
theorem parse_subdomain_not_idempotent :
    parse_subdomain ['.', ' ', '.'] = Except.ok ['.', ' '] ∧
    parse_subdomain ['.', ' '] = Except.error DnsError.emptyQuery := by
  refine ⟨by decide, by decide⟩

/-- C10 (amended): extraction is idempotent on every successful result that
does not end in whitespace: such a result starts with a non-whitespace
character and ends with a non-separator character, so trimming and
dot-stripping leave it unchanged and re-extraction returns it as is.  (A
successful result can end in whitespace only when dot-stripping exposes it,
as in the counterexample.) -/
theorem parse_subdomain_idempotent_without_trailing_ws
    (s p : List Char)
    (h : parse_subdomain s = Except.ok p)
    (hlast : ∀ c, p.getLast? = some c → isRustWhitespace c = false) :
    parse_subdomain p = Except.ok p := by
  have hp : p = trimEndMatchesDot (rustTrim s) ∧ p ≠ [] := by
    unfold parse_subdomain at h
    split at h
    · exact absurd h (by simp)
    · rename_i hne
      simp only [Except.ok.injEq] at h
      exact ⟨h.symm, h ▸ hne⟩
  obtain ⟨hpeq, hpne⟩ := hp
  obtain ⟨t1, ht1⟩ := dropTrailing_append isDot (rustTrim s)
  have hr : p ++ t1 = rustTrim s := by rw [hpeq]; exact ht1
  have hhead : ∀ c, p.head? = some c → isRustWhitespace c = false := by
    intro c hc
    obtain ⟨t2, ht2⟩ := dropTrailing_append isRustWhitespace (s.dropWhile isRustWhitespace)
    have hrne : rustTrim s ≠ [] := by
      intro h0
      rw [h0] at hr
      exact hpne (List.append_eq_nil.1 hr).1
    have hr2 : rustTrim s ++ t2 = s.dropWhile isRustWhitespace := ht2
    have hc2 : (s.dropWhile isRustWhitespace).head? = some c := by
      rw [← hr2, List.head?_append_of_ne_nil _ hrne, ← hr,
        List.head?_append_of_ne_nil _ hpne]
      exact hc
    exact dropWhile_head_not isRustWhitespace hc2
  have hdot : ∀ c, p.getLast? = some c → isDot c = false := by
    intro c hc
    have hpd : dropTrailing isDot (rustTrim s) = p := by
      rw [hpeq]
      rfl
    exact dropTrailing_getLast_not isDot (rustTrim s) (by rw [hpd]; exact hc)
  have e1 : p.dropWhile isRustWhitespace = p := dropWhile_eq_self _ hhead
  have e2 : dropTrailing isRustWhitespace p = p := dropTrailing_eq_self _ hlast
  have e3 : dropTrailing isDot p = p := dropTrailing_eq_self _ hdot
  show (if trimEndMatchesDot (rustTrim p) = [] then
      (Except.error DnsError.emptyQuery : Except DnsError (List Char))
    else Except.ok (trimEndMatchesDot (rustTrim p))) = Except.ok p
  rw [rustTrim, e1, e2, trimEndMatchesDot, e3, if_neg hpne]

/-- Witness for the amended C10: `hi.` extracts to `hi`, which does not end
in whitespace, and re-extracting `hi` returns `hi`. -/
theorem parse_subdomain_idempotent_without_trailing_ws_witness :
    parse_subdomain ['h', 'i'] = Except.ok ['h', 'i'] :=
  parse_subdomain_idempotent_without_trailing_ws ['h', 'i', '.'] ['h', 'i']
    (by decide)
    (by
      intro c hc
      have h2 : (some 'i' : Option Char) = some c := hc
      injection h2 with h3
      rw [← h3]
      decide)

/-! ## Claim C5 -/

/-- C5 (counterexample): with every sampling parameter configured, the
payload built for a model attempt by the client that `Server::new` wires up
still serializes to exactly two keys, `model` and `messages` — the source
request struct has no sampling fields and the client never receives the
configured values, so they are not "included when configured". -/
theorem requestPayload_omits_configured_sampling_params :
    cfgEx.temperature = some ((7 : ℚ) / 10) ∧
    cfgEx.max_tokens = some 500 ∧
    cfgEx.top_p = some ((9 : ℚ) / 10) ∧
    cfgEx.top_k = some 40 ∧
    requestPayloadOfConfig cfgEx ['h', 'i'] ['m'] =
      some (serializeRequest (buildRequest ['s'] ['h', 'i'] ['m'])) ∧
    Json.objKeys (serializeRequest (buildRequest ['s'] ['h', 'i'] ['m'])) =
      [modelKey, messagesKey] ∧
    temperatureKey ∉ [modelKey, messagesKey] ∧
    maxTokensKey ∉ [modelKey, messagesKey] ∧
    topPKey ∉ [modelKey, messagesKey] ∧
    topKKey ∉ [modelKey, messagesKey] ∧
    frequencyPenaltyKey ∉ [modelKey, messagesKey] ∧
    presencePenaltyKey ∉ [modelKey, messagesKey] := by
  exact ⟨rfl, rfl, rfl, rfl, rfl, rfl, by decide, by decide, by decide, by decide,
    by decide, by decide⟩

/-- C5 (amended): for every model attempt the payload contains exactly the
model identifier and the two ordered messages — system role with the
configured system prompt, then user role with the prompt — and nothing
else; in particular none of the optional sampling parameters ever appears,
configured or not, because the client is constructed from the configuration
without them. -/
theorem buildRequest_model_and_two_messages_only
    (cfg : Config) (st : ClientState) (prompt model : List Char)
    (h : LlmClient.new cfg.openrouter_api_key cfg.openrouter_models cfg.system_prompt =
      Except.ok st) :
    buildRequest st.system_prompt prompt model =
      ⟨model, [⟨systemRole, cfg.system_prompt⟩, ⟨userRole, prompt⟩]⟩ ∧
    Json.objKeys (serializeRequest (buildRequest st.system_prompt prompt model)) =
      [modelKey, messagesKey] ∧
    ∀ k ∈ [temperatureKey, maxTokensKey, topPKey, topKKey, frequencyPenaltyKey,
        presencePenaltyKey],
      k ∉ Json.objKeys (serializeRequest (buildRequest st.system_prompt prompt model)) := by
  have hst : st.system_prompt = cfg.system_prompt := by
    unfold LlmClient.new at h
    split at h
    · exact absurd h (by simp)
    · split at h
      · exact absurd h (by simp)
      · simp only [Except.ok.injEq] at h
        rw [← h]
  refine ⟨?_, rfl, ?_⟩
  · rw [buildRequest, hst]
  · intro k hk
    show k ∉ [modelKey, messagesKey]
    simp only [List.mem_cons, List.not_mem_nil, or_false] at hk
    rcases hk with rfl | rfl | rfl | rfl | rfl | rfl <;> decide

/-- Witness for the amended C5 at the all-parameters-configured
configuration. -/
theorem buildRequest_model_and_two_messages_only_witness :
    buildRequest stEx.system_prompt ['h', 'i'] ['m'] =
      ⟨['m'], [⟨systemRole, cfgEx.system_prompt⟩, ⟨userRole, ['h', 'i']⟩]⟩ ∧
    Json.objKeys (serializeRequest (buildRequest stEx.system_prompt ['h', 'i'] ['m'])) =
      [modelKey, messagesKey] ∧
    ∀ k ∈ [temperatureKey, maxTokensKey, topPKey, topKKey, frequencyPenaltyKey,
        presencePenaltyKey],
      k ∉ Json.objKeys (serializeRequest (buildRequest stEx.system_prompt ['h', 'i'] ['m'])) :=
  buildRequest_model_and_two_messages_only cfgEx stEx ['h', 'i'] ['m'] rfl

/-! ## Claims C6 and C7 -/

theorem queryLoop_cons_ok (api : OpenRouterRequest → ApiResponse)
    (systemPrompt prompt m : List Char) (rest : List (List Char))
    (le : Option ModelError) {ans : List Char}
    (hm : querySingleModel api systemPrompt prompt m = Except.ok ans) :
    queryLoop api systemPrompt prompt (m :: rest) le = (Except.ok ans, [m]) := by
  simp only [queryLoop, hm]

theorem queryLoop_cons_err (api : OpenRouterRequest → ApiResponse)
    (systemPrompt prompt m : List Char) (rest : List (List Char))
    (le : Option ModelError) {e : ModelError}
    (he : querySingleModel api systemPrompt prompt m = Except.error e) :
    queryLoop api systemPrompt prompt (m :: rest) le =
      ((queryLoop api systemPrompt prompt rest (some e)).1,
        m :: (queryLoop api systemPrompt prompt rest (some e)).2) := by
  simp only [queryLoop, he]

theorem queryLoop_first_success (api : OpenRouterRequest → ApiResponse)
    (systemPrompt prompt m ans : List Char) (post : List (List Char)) :
    ∀ (pre : List (List Char)) (le : Option ModelError),
      (∀ m' ∈ pre, ∃ e, querySingleModel api systemPrompt prompt m' = Except.error e) →
      querySingleModel api systemPrompt prompt m = Except.ok ans →
      queryLoop api systemPrompt prompt (pre ++ m :: post) le = (Except.ok ans, pre ++ [m]) := by
  intro pre
  induction pre with
  | nil =>
      intro le hpre hm
      show queryLoop api systemPrompt prompt (m :: post) le = _
      rw [queryLoop_cons_ok api systemPrompt prompt m post le hm]
      rfl
  | cons m' pre ih =>
      intro le hpre hm
      obtain ⟨e, he⟩ := hpre m' (by simp)
      show queryLoop api systemPrompt prompt (m' :: (pre ++ m :: post)) le = _
      rw [queryLoop_cons_err api systemPrompt prompt m' (pre ++ m :: post) le he,
        ih (some e) (fun x hx => hpre x (by simp [hx])) hm]
      rfl

/-- C6: with a non-empty prompt, the query returns the first successful
model's answer immediately: every model before the first success is
attempted and fails, the succeeding model is attempted exactly once, and no
model after it is attempted at all (the attempt trace is exactly the failing
prefix followed by the one success). -/
theorem llmQuery_first_success_immediate
    (api : OpenRouterRequest → ApiResponse) (st : ClientState)
    (prompt m ans : List Char) (pre post : List (List Char))
    (hprompt : prompt ≠ [])
    (hmodels : st.models = pre ++ m :: post)
    (hpre : ∀ m' ∈ pre, ∃ e, querySingleModel api st.system_prompt prompt m' = Except.error e)
    (hm : querySingleModel api st.system_prompt prompt m = Except.ok ans) :
    LlmClient.query api st prompt = (Except.ok ans, pre ++ [m]) := by
  rw [LlmClient.query, if_neg hprompt, hmodels]
  exact queryLoop_first_success api st.system_prompt prompt m ans post pre none hpre hm

/-- Witness for C6: models `[m1, m2]`, `m1` rate-limited, `m2` succeeds with
content `X`; the result is `X` and the trace shows `m2` invoked exactly
once, after `m1`. -/
theorem llmQuery_first_success_immediate_witness :
    LlmClient.query apiEx ⟨['k'], [['m', '1'], ['m', '2']], ['s']⟩ ['h', 'i'] =
      (Except.ok ['X'], [['m', '1'], ['m', '2']]) :=
  llmQuery_first_success_immediate apiEx ⟨['k'], [['m', '1'], ['m', '2']], ['s']⟩
    ['h', 'i'] ['m', '2'] ['X'] [['m', '1']] [] (by decide) rfl
    (by
      intro m' hm'
      rcases List.mem_singleton.1 hm' with rfl
      exact ⟨ModelError.rateLimited, by decide⟩)
    (by decide)

theorem queryLoop_all_fail (api : OpenRouterRequest → ApiResponse)
    (systemPrompt prompt : List Char) :
    ∀ (models : List (List Char)) (le : Option ModelError)
      (mLast : List Char) (eLast : ModelError),
      (∀ m ∈ models, ∃ e, querySingleModel api systemPrompt prompt m = Except.error e) →
      models.getLast? = some mLast →
      querySingleModel api systemPrompt prompt mLast = Except.error eLast →
      queryLoop api systemPrompt prompt models le = (Except.error eLast, models) := by
  intro models
  induction models with
  | nil =>
      intro le mLast eLast hall hlast herr
      simp at hlast
  | cons m rest ih =>
      intro le mLast eLast hall hlast herr
      obtain ⟨e, he⟩ := hall m (by simp)
      cases rest with
      | nil =>
          have hm : mLast = m := by simpa using hlast.symm
          subst hm
          have he2 : e = eLast := by
            rw [he] at herr
            exact Except.error.inj herr
          subst he2
          show queryLoop api systemPrompt prompt [mLast] le = _
          rw [queryLoop_cons_err api systemPrompt prompt mLast [] le he]
          rfl
      | cons m2 rest2 =>
          have hlast2 : (m2 :: rest2).getLast? = some mLast := by
            rw [← hlast]
            exact (List.getLast?_cons_cons ..).symm
          show queryLoop api systemPrompt prompt (m :: m2 :: rest2) le = _
          rw [queryLoop_cons_err api systemPrompt prompt m (m2 :: rest2) le he,
            ih (some e) mLast eLast (fun x hx => hall x (by simp [hx])) hlast2 herr]

/-- C7: with a non-empty prompt, if every configured model's attempt fails,
the query returns the error produced by the LAST attempted model (earlier
errors are discarded), after attempting every model in order. -/
theorem llmQuery_all_fail_returns_last_error
    (api : OpenRouterRequest → ApiResponse) (st : ClientState)
    (prompt mLast : List Char) (eLast : ModelError)
    (hprompt : prompt ≠ [])
    (hall : ∀ m ∈ st.models, ∃ e, querySingleModel api st.system_prompt prompt m = Except.error e)
    (hlast : st.models.getLast? = some mLast)
    (herr : querySingleModel api st.system_prompt prompt mLast = Except.error eLast) :
    LlmClient.query api st prompt = (Except.error eLast, st.models) := by
  rw [LlmClient.query, if_neg hprompt]
  exact queryLoop_all_fail api st.system_prompt prompt st.models none mLast eLast
    hall hlast herr

/-- Witness for C7: `m1` rate-limited and `m2` hits an upstream 500; the
query surfaces the 500 of the last model, not the rate limit of the
first. -/
theorem llmQuery_all_fail_returns_last_error_witness :
    LlmClient.query apiAllFail ⟨['k'], [['m', '1'], ['m', '2']], ['s']⟩ ['h', 'i'] =
      (Except.error ModelError.serverError500, [['m', '1'], ['m', '2']]) :=
  llmQuery_all_fail_returns_last_error apiAllFail ⟨['k'], [['m', '1'], ['m', '2']], ['s']⟩
    ['h', 'i'] ['m', '2'] ModelError.serverError500 (by decide)
    (by
      intro m hm
      simp only [List.mem_cons, List.not_mem_nil, or_false] at hm
      rcases hm with rfl | rfl
      · exact ⟨ModelError.rateLimited, by decide⟩
      · exact ⟨ModelError.serverError500, by decide⟩)
    (by decide) (by decide)

/-! ## Claims C8 and C9 -/

theorem getLast?_getD_cons {α : Type} (x : α) (l : List α) (d : α) :
    ((x :: l).getLast?).getD d = (l.getLast?).getD x := by
  cases l with
  | nil => rfl
  | cons y l =>
      obtain ⟨z, hz⟩ := Option.isSome_iff_exists.1
        (List.getLast?_isSome.2 (by simp : (y :: l) ≠ []))
      rw [List.getLast?_cons_cons, hz]
      rfl

theorem handleLoop_spec (api : OpenRouterRequest → ApiResponse) (st : ClientState) :
    ∀ (queries : List DnsQuery) (acc : List DnsRecord) (code : ResponseCode)
      (res : List DnsRecord × ResponseCode),
      handleLoop api st queries acc code = some res →
      res.1 = acc ++ queries.flatMap (queryRecords api st) ∧
      res.2 = ((queries.filterMap (queryStatus api st)).getLast?).getD code := by
  intro queries
  induction queries with
  | nil =>
      intro acc code res h
      simp only [handleLoop, Option.some_inj] at h
      subst h
      simp
  | cons q rest ih =>
      intro acc code res h
      simp only [handleLoop] at h
      split at h
      · rename_i htxt
        cases hpq : processQuery api st q.name with
        | none => rw [hpq] at h; exact absurd h (by simp)
        | some r =>
            cases r with
            | ok records =>
                rw [hpq] at h
                dsimp only at h
                obtain ⟨h1, h2⟩ := ih _ _ _ h
                have hqr : queryRecords api st q = records := by
                  simp [queryRecords, htxt, hpq]
                have hqs : queryStatus api st q = none := by
                  simp [queryStatus, htxt, hpq]
                constructor
                · rw [h1, List.flatMap_cons, hqr, List.append_assoc]
                · rw [h2, List.filterMap_cons, hqs]
            | error e =>
                rw [hpq] at h
                dsimp only at h
                obtain ⟨h1, h2⟩ := ih _ _ _ h
                have hqr : queryRecords api st q = [] := by
                  simp [queryRecords, htxt, hpq]
                have hqs : queryStatus api st q = some ResponseCode.servFail := by
                  simp [queryStatus, htxt, hpq]
                constructor
                · rw [h1, List.flatMap_cons, hqr]
                  rfl
                · rw [h2, List.filterMap_cons, hqs, getLast?_getD_cons]
      · rename_i htxt
        obtain ⟨h1, h2⟩ := ih _ _ _ h
        have hqr : queryRecords api st q = [] := by
          simp [queryRecords, htxt]
        have hqs : queryStatus api st q = some ResponseCode.notImp := by
          simp [queryStatus, htxt]
        constructor
        · rw [h1, List.flatMap_cons, hqr]
          rfl
        · rw [h2, List.filterMap_cons, hqs, getLast?_getD_cons]

/-- C8: over all the queries of one request message, the answer records are
the in-order concatenation of each query's contribution (non-TXT queries and
failing pipelines contribute none), and the single message-level response
code is the LAST terminal condition assigned while walking the queries in
order — NotImp for a non-TXT query, ServFail for a failing pipeline — or
NoError if none was assigned: last write wins. -/
theorem handleDnsRequest_records_and_last_status
    (api : OpenRouterRequest → ApiResponse) (st : ClientState)
    (queries : List DnsQuery) (res : List DnsRecord × ResponseCode)
    (h : handle_dns_request api st queries = some res) :
    res.1 = queries.flatMap (queryRecords api st) ∧
    res.2 = ((queries.filterMap (queryStatus api st)).getLast?).getD ResponseCode.noError := by
  simpa using handleLoop_spec api st queries [] ResponseCode.noError res h

/-- Witness for C8: an A-type query followed by a successful TXT query; the
TXT answer records survive and the message status stays NotImp — the last
terminal condition assigned. -/
theorem handleDnsRequest_records_and_last_status_witness :
    (([⟨['h', 'i', '.'], 300, [['o', 'k']]⟩], ResponseCode.notImp) :
        List DnsRecord × ResponseCode).1 =
      ([⟨['h', 'i', '.'], 1⟩, ⟨['h', 'i', '.'], 16⟩] : List DnsQuery).flatMap
        (queryRecords apiOk stEx) ∧
    (([⟨['h', 'i', '.'], 300, [['o', 'k']]⟩], ResponseCode.notImp) :
        List DnsRecord × ResponseCode).2 =
      ((([⟨['h', 'i', '.'], 1⟩, ⟨['h', 'i', '.'], 16⟩] : List DnsQuery).filterMap
        (queryStatus apiOk stEx)).getLast?).getD ResponseCode.noError :=
  handleDnsRequest_records_and_last_status apiOk stEx
    [⟨['h', 'i', '.'], 1⟩, ⟨['h', 'i', '.'], 16⟩]
    ([⟨['h', 'i', '.'], 300, [['o', 'k']]⟩], ResponseCode.notImp) (by decide)

/-- C9: when the pipeline succeeds for a TXT query, `process_query` builds
exactly one answer record per chunk, in chunk order, each carrying that
chunk as its single TXT string and a fixed TTL of 300 seconds; and for any
query whose pipeline fails, the response carries no records for it and the
status becomes ServFail. -/
theorem processQuery_record_per_chunk_ttl300
    (api : OpenRouterRequest → ApiResponse) (st : ClientState)
    (name prompt text name2 : List Char) (chunks : List (List Char))
    (e : PipelineError)
    (hparse : parse_subdomain name = Except.ok prompt)
    (hquery : (LlmClient.query api st prompt).1 = Except.ok text)
    (hchunk : chunk_text defaultMaxChunk defaultMaxTotal text = some chunks)
    (hfail : processQuery api st name2 = some (Except.error e)) :
    processQuery api st name =
      some (Except.ok (chunks.map fun chunk => ⟨name, 300, [chunk]⟩)) ∧
    handle_dns_request api st [⟨name2, 16⟩] = some ([], ResponseCode.servFail) := by
  constructor
  · unfold processQuery
    rw [hparse]
    dsimp only
    rw [hquery]
    dsimp only
    rw [hchunk]
  · show handleLoop api st [⟨name2, 16⟩] [] ResponseCode.noError = _
    simp [handleLoop, hfail]

/-- Witness for C9: `yo.` resolves through the pipeline to one 300-second
TXT record carrying the single chunk `ok`; the unparsable query `.` yields
ServFail and no records. -/
theorem processQuery_record_per_chunk_ttl300_witness :
    processQuery apiOk stEx ['y', 'o', '.'] =
      some (Except.ok (([['o', 'k']] : List (List Char)).map
        fun chunk => ⟨['y', 'o', '.'], 300, [chunk]⟩)) ∧
    handle_dns_request apiOk stEx [⟨['.'], 16⟩] = some ([], ResponseCode.servFail) :=
  processQuery_record_per_chunk_ttl300 apiOk stEx ['y', 'o', '.'] ['y', 'o']
    ['o', 'k'] ['.'] [['o', 'k']] (PipelineError.parseFailed DnsError.emptyQuery)
    (by decide) (by decide) (by decide) (by decide)

end LlmOverDns
